import Mathlib

/-!
# Verification of the Esolangs.py brainfuck interpreter core

A shallow embedding of `src/esolangs_py/lib/brainfuck.py`: the memory model
(`move_forwards`, `move_backwards`, `increase_cell`, `decrease_cell`), the
preprocessor (`filter_instructions`, `parse_instructions`), the execution
engine (`run`), I/O (`input_byte`, `output_byte`) and the entry point
(`interpret`).

The Python module keeps its execution state in module-level globals
(`ARRAY`, `IPTR`, `DPTR`, `JUMP_TABLE`, `INSTRUCTIONS`) plus the process
stdin/stdout. We embed that ambient state as an explicit `Globals`
structure threaded through every operation; exceptions become `Except`.
Cell values are `Nat` taken modulo 256 where the source masks with `& 0xFF`;
the data and instruction pointers are `Int` because the source lets them go
negative before checking.
-/

namespace Esolangs

/-- `BF_DEFAULT_MEMORY_SIZE = 30_000` in the source. -/
def BF_DEFAULT_MEMORY_SIZE : Nat := 30000

/-- `move_forwards`: the source mutates the global `DPTR` first (`DPTR += 1`)
and only then checks `DPTR >= BF_DEFAULT_MEMORY_SIZE`, raising `IndexError`
if so.  We return the mutated pointer together with a flag saying whether the
`IndexError` is raised; on a raise the global pointer is left at the mutated
(out-of-range) value. -/
def move_forwards (dptr : Int) : Int × Bool :=
  let d := dptr + 1
  (d, decide (d ≥ (BF_DEFAULT_MEMORY_SIZE : Int)))

/-- `move_backwards`: mutates `DPTR -= 1` then raises `IndexError` when
`DPTR < 0`. -/
def move_backwards (dptr : Int) : Int × Bool :=
  let d := dptr - 1
  (d, decide (d < 0))

/-- `increase_cell`: `ARRAY[DPTR] = (ARRAY[DPTR]+1) & 0xFF`.  On a
non-negative value the mask is reduction modulo 256. -/
def increase_cell (v : Nat) : Nat := (v + 1) % 256

/-- `decrease_cell`: `ARRAY[DPTR] = (ARRAY[DPTR]-1) & 0xFF`.  Python's
`& 0xFF` on a (possibly negative) int is the Euclidean remainder modulo 256,
which is `Int.emod` for a positive modulus. -/
def decrease_cell (v : Nat) : Nat := (((v : Int) - 1) % 256).toNat

/-- `input_byte`: reads one byte from stdin; on EOF (`b''`) the cell is left
as-is, otherwise the cell is overwritten with the byte read.  We model stdin
as the list of bytes not yet consumed and return (remaining input, new cell
value). -/
def input_byte (inp : List Nat) (cell : Nat) : List Nat × Nat :=
  match inp with
  | [] => ([], cell)
  | b :: rest => (rest, b)

/-- The global dict `JUMP_TABLE`, as an association list.  Assignment
`JUMP_TABLE[k] = v` prepends `(k, v)`; lookup takes the most recent binding,
which is exactly dict overwrite semantics for reads. -/
def jtLookup (jt : List (Nat × Nat)) (k : Nat) : Option Nat :=
  match jt with
  | [] => none
  | (k', v) :: rest => if k = k' then some v else jtLookup rest k

/-- The two `SyntaxError`s of `filter_instructions`: `']'` with an empty
stack (carrying that bracket's index), and leftover `'['`s after the scan
(the source prints one `Missing closing bracket` line per leftover opening
position, in deque order, before raising). -/
inductive SyntaxErr where
  | missingOpening (idx : Nat)
  | missingClosing (positions : List Nat)
  deriving DecidableEq, Repr

/-- The loop body plus tail of `filter_instructions`, with the enumeration
index, bracket stack and jump table explicit.  The deque is used as a stack
on its right end; we keep the top at the head, so the left-to-right
iteration over leftovers at the end is `stack.reverse`.  Python's generator
is consumed whole by `''.join`, so raising inside it discards any characters
already yielded — hence `Except` over the full result.  Per source order,
`JUMP_TABLE[idx] = opening` happens before `JUMP_TABLE[opening] = idx`. -/
def filterAux (keep : Option (List Char)) :
    List Char → Nat → List Nat → List (Nat × Nat) →
    Except SyntaxErr (List Char × List (Nat × Nat))
  | [], _, stack, jt =>
    if stack.isEmpty then .ok ([], jt)
    else .error (.missingClosing stack.reverse)
  | c :: rest, idx, stack, jt =>
    let bracketStep : Except SyntaxErr (List Nat × List (Nat × Nat)) :=
      if c = '[' then .ok (idx :: stack, jt)
      else if c = ']' then
        match stack with
        | [] => .error (.missingOpening idx)
        | opening :: stack' =>
          .ok (stack', (opening, idx) :: (idx, opening) :: jt)
      else .ok (stack, jt)
    match bracketStep with
    | .error e => .error e
    | .ok (stack', jt') =>
      let kept : Bool :=
        match keep with
        | none => true
        | some ks => ks.contains c
      match filterAux keep rest (idx + 1) stack' jt' with
      | .error e => .error e
      | .ok (out, jtF) => .ok ((if kept then [c] else []) ++ out, jtF)

/-- `filter_instructions(instructions, keep)`: scans from index 0 with a
fresh local deque, extending the current global `JUMP_TABLE` (passed in as
`jt`), and yields the kept characters. -/
def filter_instructions (instructions : List Char) (keep : Option (List Char))
    (jt : List (Nat × Nat)) : Except SyntaxErr (List Char × List (Nat × Nat)) :=
  filterAux keep instructions 0 [] jt

/-- The keys of the `COMMANDS` registry, in insertion order. -/
def commandChars : List Char := ['+', '-', '>', '<', '.', ',', '[', ']']

/-- `COMMANDS` keys after `parse_instructions` registers the `'#'` debug
command (`dump_state=True`). -/
def commandCharsWithDebug : List Char := commandChars ++ ['#']

/-- The module-level mutable state of `brainfuck.py` (`ARRAY`, `IPTR`,
`DPTR`, `JUMP_TABLE`, `INSTRUCTIONS`) together with the ambient stdin
(bytes not yet consumed) and stdout (bytes written so far).  None of it is
reset by `interpret`; it persists across calls. -/
structure Globals where
  array : Nat → Nat
  iptr : Int
  dptr : Int
  jumpTable : List (Nat × Nat)
  instructions : List Char
  inp : List Nat
  out : List Nat

/-- The state at module import: a 30,000-cell zero array, both pointers 0,
empty jump table, no instructions loaded, nothing read or written. -/
def initGlobals : Globals :=
  { array := fun _ => 0
    iptr := 0
    dptr := 0
    jumpTable := []
    instructions := []
    inp := []
    out := [] }

/-- `parse_instructions(instructions, strip_instructions, dump_state)`:
optionally registers `'#'`, then computes the keep-set.  The source's test
is `if strip_instructions and ARRAY[0]:` — literally the truthiness of
memory cell 0, not an inspection of the script — so `keep` is the command
registry only when that cell is non-zero.  Then joins the generator into the
global `INSTRUCTIONS`. -/
def parse_instructions (g : Globals) (script : List Char)
    (strip_instructions : Bool) (dump_state : Bool) : Except SyntaxErr Globals :=
  let cmds := if dump_state then commandCharsWithDebug else commandChars
  let keep := if strip_instructions ∧ g.array 0 ≠ 0 then some cmds else none
  match filter_instructions script keep g.jumpTable with
  | .error e => .error e
  | .ok (out, jt) => .ok { g with instructions := out, jumpTable := jt }

/-- The runtime `IndexError`s and `KeyError` that `run` and the command
functions can raise. -/
inductive RunErr where
  | dptrOut (dptr : Int)     -- `IndexError` from move_forwards / move_backwards
  | iptrNeg (iptr : Int)     -- `IndexError`: instruction pointer below 0
  | instrIndex (iptr : Int)  -- `IndexError` from `INSTRUCTIONS[IPTR]` past the end
  | keyError (k : Nat)       -- `KeyError` from `JUMP_TABLE[IPTR]`
  deriving DecidableEq, Repr

/-- Point update of the memory array (`ARRAY[i] = v`). -/
def updateMem (m : Nat → Nat) (i : Nat) (v : Nat) : Nat → Nat :=
  fun j => if j = i then v else m j

/-- Dispatch of one command character, i.e. `COMMANDS.get(c)` followed by
the call when it is not `None`.  `jump_closing` (`'['`) rewrites `IPTR` to
`JUMP_TABLE[IPTR]` when the current cell is zero; `jump_opening` (`']'`)
when it is non-zero.  `'#'` (with or without `dump_state`) and every
unrecognized character leave the state untouched (`output_debug` writes only
to stderr). -/
def execCommand (c : Char) (g : Globals) : Except RunErr Globals :=
  if c = '+' then
    .ok { g with array := updateMem g.array g.dptr.toNat (increase_cell (g.array g.dptr.toNat)) }
  else if c = '-' then
    .ok { g with array := updateMem g.array g.dptr.toNat (decrease_cell (g.array g.dptr.toNat)) }
  else if c = '>' then
    let r := move_forwards g.dptr
    if r.2 then .error (.dptrOut r.1) else .ok { g with dptr := r.1 }
  else if c = '<' then
    let r := move_backwards g.dptr
    if r.2 then .error (.dptrOut r.1) else .ok { g with dptr := r.1 }
  else if c = '.' then
    .ok { g with out := g.out ++ [g.array g.dptr.toNat] }
  else if c = ',' then
    let r := input_byte g.inp (g.array g.dptr.toNat)
    .ok { g with inp := r.1, array := updateMem g.array g.dptr.toNat r.2 }
  else if c = '[' then
    if g.array g.dptr.toNat = 0 then
      match jtLookup g.jumpTable g.iptr.toNat with
      | none => .error (.keyError g.iptr.toNat)
      | some j => .ok { g with iptr := (j : Int) }
    else .ok g
  else if c = ']' then
    if g.array g.dptr.toNat ≠ 0 then
      match jtLookup g.jumpTable g.iptr.toNat with
      | none => .error (.keyError g.iptr.toNat)
      | some j => .ok { g with iptr := (j : Int) }
    else .ok g
  else .ok g

/-- One iteration of the `while IPTR != len(INSTRUCTIONS)` body of `run`:
the negative-`IPTR` check, the fetch `INSTRUCTIONS[IPTR]`, the dispatch,
then `IPTR += 1` (also after a jump landed — the +1 applies to the jump
target). -/
def runStep (g : Globals) : Except RunErr Globals :=
  if g.iptr < 0 then .error (.iptrNeg g.iptr)
  else
    match g.instructions.get? g.iptr.toNat with
    | none => .error (.instrIndex g.iptr)
    | some c =>
      match execCommand c g with
      | .error e => .error e
      | .ok g' => .ok { g' with iptr := g'.iptr + 1 }

/-- `run()`, fuel-indexed: `.ok none` means the fuel ran out before the
loop guard `IPTR == len(INSTRUCTIONS)` was reached. -/
def run (fuel : Nat) (g : Globals) : Except RunErr (Option Globals) :=
  match fuel with
  | 0 => .ok none
  | f + 1 =>
    if g.iptr = (g.instructions.length : Int) then .ok (some g)
    else
      match runStep g with
      | .error e => .error e
      | .ok g' => run f g'

/-- Faults propagated out of `interpret`: preprocessing `SyntaxError`s and
runtime `IndexError`/`KeyError`s. -/
inductive BFErr where
  | syntaxFault (e : SyntaxErr)
  | runtimeFault (e : RunErr)
  deriving DecidableEq, Repr

/-- `interpret(script, strip_instructions, dump_state)`: parse (which may
raise before any execution), then run, then return exit code 0.  The
resulting globals are carried along because the module state survives the
call. -/
def interpret (fuel : Nat) (g : Globals) (script : List Char)
    (strip_instructions : Bool) (dump_state : Bool) :
    Except BFErr (Option (Globals × Int)) :=
  match parse_instructions g script strip_instructions dump_state with
  | .error e => .error (.syntaxFault e)
  | .ok g' =>
    match run fuel g' with
    | .error e => .error (.runtimeFault e)
    | .ok none => .ok none
    | .ok (some g'') => .ok (some (g'', 0))

/-- Two consecutive `interpret` calls in one process: the module globals
left behind by the first call are the ones the second call starts from.
If the first call faults or runs out of fuel its result is returned. -/
def interpret_then_interpret (fuel : Nat) (s1 s2 : List Char) :
    Except BFErr (Option (Globals × Int)) :=
  match interpret fuel initGlobals s1 false false with
  | .ok (some (g, _)) => interpret fuel g s2 false false
  | r => r

/-- `Except` success test. -/
def isOk {ε α : Type} : Except ε α → Bool
  | .ok _ => true
  | .error _ => false

/-- Spec-side definition, for the refinement in C8.  "Brackets are matched"
as the spec means it, written independently of the scanner: a running depth
counter that must never be asked to close at depth 0 and must end at 0. -/
def balancedAux : List Char → Nat → Bool
  | [], depth => depth == 0
  | c :: rest, depth =>
    if c = '[' then balancedAux rest (depth + 1)
    else if c = ']' then
      match depth with
      | 0 => false
      | d + 1 => balancedAux rest d
    else balancedAux rest depth

/-- A source has matched brackets iff `balancedAux` accepts it from depth 0. -/
def bracketBalanced (instrs : List Char) : Bool := balancedAux instrs 0

/-- A concrete machine state for exercising the jump semantics: program
`"[]"` with its jump table, about to execute the `'['` at position 0 over
an all-zero memory. -/
def exampleJumpState : Globals :=
  { initGlobals with instructions := ['[', ']'], jumpTable := [(0, 1), (1, 0)] }

end Esolangs

namespace Esolangs

/-- C5: Cell arithmetic is modulo 256 with no overflow fault: for every cell
value `v ∈ [0,255]`, increment then decrement (and decrement then increment)
restores `v`; incrementing 255 yields 0 and decrementing 0 yields 255. -/
theorem cell_arith_mod256 (v : Nat) (h : v ≤ 255) :
    increase_cell (decrease_cell v) = v ∧
    decrease_cell (increase_cell v) = v ∧
    increase_cell 255 = 0 ∧
    decrease_cell 0 = 255 := by
  refine ⟨?_, ?_, ?_, ?_⟩ <;> simp only [increase_cell, decrease_cell] <;> omega

/-- Witness for `cell_arith_mod256` at `v = 7`. -/
theorem cell_arith_mod256_witness :
    increase_cell (decrease_cell 7) = 7 ∧
    decrease_cell (increase_cell 7) = 7 ∧
    increase_cell 255 = 0 ∧
    decrease_cell 0 = 255 :=
  cell_arith_mod256 7 (by decide)

/-- C6: starting from an in-range data pointer, `move_forwards` raises
`IndexError` iff the incremented pointer equals the array length, and
`move_backwards` raises iff the decremented pointer is negative; in
particular advancing from `length - 1` raises, retreating from `0` raises,
and no move that lands inside `[0, length-1]` raises. -/
theorem pointer_bounds_iff (dptr : Int)
    (h0 : 0 ≤ dptr) (h1 : dptr < (BF_DEFAULT_MEMORY_SIZE : Int)) :
    ((move_forwards dptr).2 = true ↔ dptr + 1 = (BF_DEFAULT_MEMORY_SIZE : Int)) ∧
    ((move_backwards dptr).2 = true ↔ dptr - 1 < 0) ∧
    (dptr = (BF_DEFAULT_MEMORY_SIZE : Int) - 1 → (move_forwards dptr).2 = true) ∧
    (dptr = 0 → (move_backwards dptr).2 = true) ∧
    (dptr + 1 < (BF_DEFAULT_MEMORY_SIZE : Int) → (move_forwards dptr).2 = false) ∧
    (0 < dptr → (move_backwards dptr).2 = false) := by
  refine ⟨?_, ?_, ?_, ?_, ?_, ?_⟩ <;>
    simp only [move_forwards, move_backwards, BF_DEFAULT_MEMORY_SIZE,
      decide_eq_true_eq, decide_eq_false_iff_not] at * <;> omega

/-- Witness for `pointer_bounds_iff` at `dptr = 29999`: advancing raises. -/
theorem pointer_bounds_iff_witness :
    (move_forwards 29999).2 = true ∧ (move_backwards 29999).2 = false :=
  ⟨((pointer_bounds_iff 29999 (by decide) (by decide)).2.2.1 (by decide)),
   ((pointer_bounds_iff 29999 (by decide) (by decide)).2.2.2.2.2 (by decide))⟩

/-- C10: when `move_forwards` (resp. `move_backwards`) raises its
out-of-bounds fault from an in-range pointer, the global data pointer has
already been mutated and is left holding the out-of-range value: the array
length (resp. `-1`).  The fault does not restore the pointer. -/
theorem pointer_left_out_of_range (dptr : Int)
    (h0 : 0 ≤ dptr) (h1 : dptr < (BF_DEFAULT_MEMORY_SIZE : Int)) :
    ((move_forwards dptr).2 = true →
      (move_forwards dptr).1 = (BF_DEFAULT_MEMORY_SIZE : Int)) ∧
    ((move_backwards dptr).2 = true → (move_backwards dptr).1 = -1) := by
  refine ⟨?_, ?_⟩ <;>
    simp only [move_forwards, move_backwards, BF_DEFAULT_MEMORY_SIZE,
      decide_eq_true_eq] at * <;> omega

/-- Witness for `pointer_left_out_of_range` at `dptr = 29999` and `dptr = 0`. -/
theorem pointer_left_out_of_range_witness :
    (move_forwards 29999).1 = (BF_DEFAULT_MEMORY_SIZE : Int) ∧
    (move_backwards 0).1 = -1 :=
  ⟨(pointer_left_out_of_range 29999 (by decide) (by decide)).1 (by decide),
   (pointer_left_out_of_range 0 (by decide) (by decide)).2 (by decide)⟩

/-- C1 counterexample: filtering `"x[]"` against the command registry keeps
only `"[]"`, whose brackets sit at output positions 0 and 1 — yet the jump
table built alongside binds raw-source positions 1 and 2: it has no entry
at position 0, and its entries name position 2, which does not even exist in
the 2-character output.  The recorded positions are measured in the raw
source, not the filtered output. -/
theorem jump_table_raw_positions_counterexample :
    filter_instructions ['x', '[', ']'] (some commandChars) [] =
      .ok (['[', ']'], [(1, 2), (2, 1)]) ∧
    jtLookup [(1, 2), (2, 1)] 0 = none ∧
    jtLookup [(1, 2), (2, 1)] 1 = some 2 ∧
    (['[', ']'] : List Char).length = 2 := by
  exact ⟨rfl, rfl, rfl, rfl⟩

/-- C2 counterexample: run `"+"` and then `"-"` in the same process.  The
second call inherits `IPTR = 1` from the first, equal to the length of the
new one-instruction program, so its loop body never executes: cell 0 stays
at 1.  A fresh run of `"-"` instead leaves cell 0 at 255.  The second call's
behaviour therefore depends on the first — execution state is not created
fresh per `interpret` invocation. -/
theorem interpret_state_persists_counterexample :
    (interpret_then_interpret 10 ['+'] ['-']).map
        (Option.map (fun p => (p.1.array 0, p.1.iptr))) = .ok (some (1, 1)) ∧
    (interpret 10 initGlobals ['-'] false false).map
        (Option.map (fun p => (p.1.array 0, p.1.iptr))) = .ok (some (255, 1)) := by
  exact ⟨rfl, rfl⟩

/-- C2 amended: `interpret` does not reset the module state before running:
`parse_instructions` leaves the memory array, both pointers, and the I/O
streams exactly as the previous call left them (it only rewrites
`INSTRUCTIONS` and extends `JUMP_TABLE`), and `run` then starts from that
inherited instruction pointer.  State persists across runs. -/
theorem interpret_reuses_global_state (g : Globals) (script : List Char)
    (strip_instructions dump_state : Bool) (g' : Globals)
    (h : parse_instructions g script strip_instructions dump_state = .ok g') :
    g'.array = g.array ∧ g'.iptr = g.iptr ∧ g'.dptr = g.dptr ∧
    g'.inp = g.inp ∧ g'.out = g.out := by
  unfold parse_instructions at h
  dsimp only at h
  split at h
  · exact absurd h (by simp)
  · cases h
    exact ⟨rfl, rfl, rfl, rfl, rfl⟩

/-- Witness for `interpret_reuses_global_state`: parsing `"+"` from a state
whose instruction pointer is 5 keeps the pointer at 5 and the rest of the
state untouched. -/
theorem interpret_reuses_global_state_witness :
    ({ initGlobals with iptr := 5, instructions := ['+'] } : Globals).array =
      ({ initGlobals with iptr := 5 } : Globals).array ∧
    ({ initGlobals with iptr := 5, instructions := ['+'] } : Globals).iptr =
      ({ initGlobals with iptr := 5 } : Globals).iptr ∧
    ({ initGlobals with iptr := 5, instructions := ['+'] } : Globals).dptr =
      ({ initGlobals with iptr := 5 } : Globals).dptr ∧
    ({ initGlobals with iptr := 5, instructions := ['+'] } : Globals).inp =
      ({ initGlobals with iptr := 5 } : Globals).inp ∧
    ({ initGlobals with iptr := 5, instructions := ['+'] } : Globals).out =
      ({ initGlobals with iptr := 5 } : Globals).out :=
  interpret_reuses_global_state { initGlobals with iptr := 5 } ['+'] false false
    { initGlobals with iptr := 5, instructions := ['+'] } rfl

/-- C3: what the code actually does on `"!+x+."` with
`strip_instructions=True` from a fresh state.  The strip test is
`strip_instructions and ARRAY[0]` — memory cell 0, which is 0 — so
filtering is never enabled, and the `'!'` marker (never examined anywhere)
is kept as positioned instruction 0 of the sequence.  The run still outputs
the single byte 2 only because `'!'` and `'x'` are no-op characters.  This
contradicts the module docstring (design choices 6/6.1), which says `'!'`
strips all other characters and is not counted as part of the program. -/
theorem strip_marker_never_recognized :
    (parse_instructions initGlobals ['!', '+', 'x', '+', '.'] true false).map
        (fun g => g.instructions) = .ok ['!', '+', 'x', '+', '.'] ∧
    (interpret 10 initGlobals ['!', '+', 'x', '+', '.'] true false).map
        (Option.map (fun p => (p.1.out, p.2))) = .ok (some ([2], 0)) := by
  exact ⟨rfl, rfl⟩

/-- C7: `input_byte` overwrites the cell with the byte read on success and
leaves the cell untouched at end-of-stream; end to end, the program `","`
on an empty input stream leaves cell 0 at its initial value 0 and exits
cleanly with code 0. -/
theorem input_byte_semantics :
    (∀ (b : Nat) (rest : List Nat) (cell : Nat),
      input_byte (b :: rest) cell = (rest, b)) ∧
    (∀ cell : Nat, input_byte [] cell = ([], cell)) ∧
    (interpret 10 initGlobals [','] false false).map
        (Option.map (fun p => (p.1.array 0, p.2))) = .ok (some (0, 0)) := by
  exact ⟨fun _ _ _ => rfl, fun _ => rfl, rfl⟩

theorem execCommand_open_bracket (g : Globals) :
    execCommand '[' g =
      if g.array g.dptr.toNat = 0 then
        match jtLookup g.jumpTable g.iptr.toNat with
        | none => .error (.keyError g.iptr.toNat)
        | some j => .ok { g with iptr := (j : Int) }
      else .ok g := rfl

theorem execCommand_close_bracket (g : Globals) :
    execCommand ']' g =
      if g.array g.dptr.toNat ≠ 0 then
        match jtLookup g.jumpTable g.iptr.toNat with
        | none => .error (.keyError g.iptr.toNat)
        | some j => .ok { g with iptr := (j : Int) }
      else .ok g := rfl

/-- C4: one loop iteration at a `'['` rewrites IPTR to the matching
closing-bracket position exactly when the current cell is zero (no-op
otherwise); at a `']'` it rewrites IPTR to the matching opening-bracket
position exactly when the cell is non-zero; and in every case the trailing
`IPTR += 1` of the loop body applies afterwards, so a jump lands on the
bracket's own recorded position and the +1 moves past it. -/
theorem bracket_jump_semantics (g : Globals) (j : Nat)
    (h0 : 0 ≤ g.iptr)
    (hj : jtLookup g.jumpTable g.iptr.toNat = some j) :
    (g.instructions.get? g.iptr.toNat = some '[' →
      runStep g = .ok { g with
        iptr := (if g.array g.dptr.toNat = 0 then (j : Int) else g.iptr) + 1 }) ∧
    (g.instructions.get? g.iptr.toNat = some ']' →
      runStep g = .ok { g with
        iptr := (if g.array g.dptr.toNat ≠ 0 then (j : Int) else g.iptr) + 1 }) := by
  constructor
  · intro hc
    unfold runStep
    rw [if_neg (by omega : ¬ g.iptr < 0), hc]
    dsimp only
    rw [execCommand_open_bracket, hj]
    by_cases hz : g.array g.dptr.toNat = 0
    · rw [if_pos hz, if_pos hz]
    · rw [if_neg hz, if_neg hz]
  · intro hc
    unfold runStep
    rw [if_neg (by omega : ¬ g.iptr < 0), hc]
    dsimp only
    rw [execCommand_close_bracket, hj]
    by_cases hz : g.array g.dptr.toNat ≠ 0
    · rw [if_pos hz, if_pos hz]
    · rw [if_neg hz, if_neg hz]

/-- Witness for `bracket_jump_semantics`: on `"[]"` with all cells zero,
the `'['` at position 0 jumps to its `']'` at position 1 and the +1 then
puts IPTR at 2. -/
theorem bracket_jump_semantics_witness :
    runStep exampleJumpState = .ok { exampleJumpState with iptr := 2 } := by
  have h := (bracket_jump_semantics exampleJumpState 1 (by decide) rfl).1 rfl
  simpa using h

theorem jtLookup_cons (k' v : Nat) (jt : List (Nat × Nat)) (k : Nat) :
    jtLookup ((k', v) :: jt) k = if k = k' then some v else jtLookup jt k := rfl

/-- The scan is insensitive to the keep-set except for which characters it
yields: a run with filtering enabled returns the filtered output and the
very same jump table (and the same error, if any) as the unfiltered run. -/
theorem filterAux_keep_map (ks : List Char) (rest : List Char) :
    ∀ (idx : Nat) (stack : List Nat) (jt : List (Nat × Nat)),
    filterAux (some ks) rest idx stack jt =
      (filterAux none rest idx stack jt).map
        (fun p => (p.1.filter (fun c => ks.contains c), p.2)) := by
  induction rest with
  | nil =>
    intro idx stack jt
    by_cases h : stack.isEmpty <;> simp [filterAux, h, Except.map]
  | cons c rest ih =>
    intro idx stack jt
    simp only [filterAux]
    by_cases h1 : c = '['
    · subst h1
      rw [if_pos rfl]
      dsimp only
      rw [ih]
      cases hrec : filterAux none rest (idx + 1) (idx :: stack) jt with
      | error e => simp [Except.map]
      | ok p =>
        cases p with
        | mk out jtF =>
          simp only [Except.map, List.filter_cons]
          split
          · next hk =>
              simp [List.filter_cons, show ('[' ∈ ks) from by simpa using hk]
          · next hk =>
              simp [List.filter_cons, show ¬ ('[' ∈ ks) from by simpa using hk]
    · by_cases h2 : c = ']'
      · subst h2
        rw [if_neg h1, if_pos rfl]
        cases stack with
        | nil => simp [Except.map]
        | cons opening stack' =>
          dsimp only
          rw [ih]
          cases hrec : filterAux none rest (idx + 1) stack'
              ((opening, idx) :: (idx, opening) :: jt) with
          | error e => simp [Except.map]
          | ok p =>
            cases p with
            | mk out jtF =>
              simp only [Except.map, List.filter_cons]
              split
              · next hk =>
                  simp [List.filter_cons, show (']' ∈ ks) from by simpa using hk]
              · next hk =>
                  simp [List.filter_cons, show ¬ (']' ∈ ks) from by simpa using hk]
      · rw [if_neg h1, if_neg h2]
        dsimp only
        rw [ih]
        cases hrec : filterAux none rest (idx + 1) stack jt with
        | error e => simp [Except.map]
        | ok p =>
          cases p with
          | mk out jtF =>
            simp only [Except.map, List.filter_cons]
            split
            · next hk =>
                simp [List.filter_cons, show (c ∈ ks) from by simpa using hk]
            · next hk =>
                simp [List.filter_cons, show ¬ (c ∈ ks) from by simpa using hk]

/-- On success, a scan with filtering disabled yields the source verbatim. -/
theorem filterAux_none_out (rest : List Char) :
    ∀ (idx : Nat) (stack : List Nat) (jt : List (Nat × Nat))
      (out : List Char) (jtF : List (Nat × Nat)),
    filterAux none rest idx stack jt = .ok (out, jtF) → out = rest := by
  induction rest with
  | nil =>
    intro idx stack jt out jtF h
    cases stack with
    | nil => simp [filterAux] at h; exact h.1
    | cons s ss => simp [filterAux] at h
  | cons c rest ih =>
    intro idx stack jt out jtF h
    simp only [filterAux] at h
    by_cases h1 : c = '['
    · subst h1
      rw [if_pos rfl] at h
      dsimp only at h
      cases hrec : filterAux none rest (idx + 1) (idx :: stack) jt with
      | error e => rw [hrec] at h; exact absurd h (by simp)
      | ok p =>
        rw [hrec] at h
        obtain ⟨out', jtF'⟩ := p
        dsimp only at h
        have hout := ih (idx + 1) (idx :: stack) jt out' jtF' hrec
        cases h
        simp [hout]
    · by_cases h2 : c = ']'
      · subst h2
        rw [if_neg h1, if_pos rfl] at h
        cases stack with
        | nil => dsimp only at h; exact absurd h (by simp)
        | cons opening stack' =>
          dsimp only at h
          cases hrec : filterAux none rest (idx + 1) stack'
              ((opening, idx) :: (idx, opening) :: jt) with
          | error e => rw [hrec] at h; exact absurd h (by simp)
          | ok p =>
            rw [hrec] at h
            obtain ⟨out', jtF'⟩ := p
            dsimp only at h
            have hout := ih (idx + 1) stack'
              ((opening, idx) :: (idx, opening) :: jt) out' jtF' hrec
            cases h
            simp [hout]
      · rw [if_neg h1, if_neg h2] at h
        dsimp only at h
        cases hrec : filterAux none rest (idx + 1) stack jt with
        | error e => rw [hrec] at h; exact absurd h (by simp)
        | ok p =>
          rw [hrec] at h
          obtain ⟨out', jtF'⟩ := p
          dsimp only at h
          have hout := ih (idx + 1) stack jt out' jtF' hrec
          cases h
          simp [hout]

/-- C1 amended: with filtering enabled the preprocessor keeps exactly the
characters in the keep-set — dropped characters occupy no position in the
output — but the jump table it builds is the very one built with filtering
disabled, whose positions index the raw source (the unfiltered scan returns
the source verbatim). -/
theorem filtering_output_and_raw_jump_table (instrs ks : List Char) :
    filter_instructions instrs (some ks) [] =
      (filter_instructions instrs none []).map
        (fun p => (p.1.filter (fun c => ks.contains c), p.2)) ∧
    (∀ (out : List Char) (jt : List (Nat × Nat)),
      filter_instructions instrs none [] = .ok (out, jt) → out = instrs) :=
  ⟨filterAux_keep_map ks instrs 0 [] [],
   fun out jt h => filterAux_none_out instrs 0 [] [] out jt h⟩

/-- Witness for `filtering_output_and_raw_jump_table` at `"x[]"` with the
command registry as keep-set. -/
theorem filtering_output_and_raw_jump_table_witness :
    filter_instructions ['x', '[', ']'] (some commandChars) [] =
      (filter_instructions ['x', '[', ']'] none []).map
        (fun p => (p.1.filter (fun c => commandChars.contains c), p.2)) ∧
    (['x', '[', ']'] : List Char) = ['x', '[', ']'] :=
  ⟨(filtering_output_and_raw_jump_table ['x', '[', ']'] commandChars).1,
   (filtering_output_and_raw_jump_table ['x', '[', ']'] commandChars).2
     ['x', '[', ']'] [(1, 2), (2, 1)] rfl⟩

/-- Success of the scan depends only on the bracket skeleton: from any
starting stack, the scan succeeds exactly when the depth-counter balance
check accepts the remaining characters from the stack's current depth. -/
theorem filterAux_isOk (keep : Option (List Char)) (rest : List Char) :
    ∀ (idx : Nat) (stack : List Nat) (jt : List (Nat × Nat)),
    isOk (filterAux keep rest idx stack jt) = balancedAux rest stack.length := by
  induction rest with
  | nil =>
    intro idx stack jt
    cases stack <;> simp [filterAux, balancedAux, isOk]
  | cons c rest ih =>
    intro idx stack jt
    simp only [filterAux, balancedAux]
    by_cases h1 : c = '['
    · subst h1
      rw [if_pos rfl]
      dsimp only
      cases hrec : filterAux keep rest (idx + 1) (idx :: stack) jt with
      | error e =>
        have h := ih (idx + 1) (idx :: stack) jt
        rw [hrec] at h
        simpa [isOk] using h
      | ok p =>
        obtain ⟨out, jtF⟩ := p
        have h := ih (idx + 1) (idx :: stack) jt
        rw [hrec] at h
        simpa [isOk] using h
    · by_cases h2 : c = ']'
      · subst h2
        rw [if_neg h1, if_pos rfl]
        cases stack with
        | nil => simp [isOk, h1]
        | cons opening stack' =>
          dsimp only
          cases hrec : filterAux keep rest (idx + 1) stack'
              ((opening, idx) :: (idx, opening) :: jt) with
          | error e =>
            have h := ih (idx + 1) stack' ((opening, idx) :: (idx, opening) :: jt)
            rw [hrec] at h
            simpa [isOk, h1] using h
          | ok p =>
            obtain ⟨out, jtF⟩ := p
            have h := ih (idx + 1) stack' ((opening, idx) :: (idx, opening) :: jt)
            rw [hrec] at h
            simpa [isOk, h1] using h
      · rw [if_neg h1, if_neg h2]
        dsimp only
        cases hrec : filterAux keep rest (idx + 1) stack jt with
        | error e =>
          have h := ih (idx + 1) stack jt
          rw [hrec] at h
          simpa [isOk, h1, h2] using h
        | ok p =>
          obtain ⟨out, jtF⟩ := p
          have h := ih (idx + 1) stack jt
          rw [hrec] at h
          simpa [isOk, h1, h2] using h

/-- C8: preprocessing fails with a SyntaxFault, before any execution
begins, exactly when brackets are unmatched: the scan succeeds iff the
depth-counter balance check accepts the source; the lone `']'` fails
immediately naming position 0; `"[["` fails after the scan enumerating
positions 0 and 1 in order; and through `interpret` both faults surface as
parse-time faults (the run loop is never entered). -/
theorem syntax_fault_characterization :
    (∀ (instrs : List Char) (keep : Option (List Char)),
      isOk (filter_instructions instrs keep []) = bracketBalanced instrs) ∧
    filter_instructions [']'] none [] = .error (.missingOpening 0) ∧
    filter_instructions ['[', '['] none [] = .error (.missingClosing [0, 1]) ∧
    interpret 10 initGlobals [']'] false false =
      .error (.syntaxFault (.missingOpening 0)) ∧
    interpret 10 initGlobals ['[', '['] false false =
      .error (.syntaxFault (.missingClosing [0, 1])) :=
  ⟨fun instrs keep => filterAux_isOk keep instrs 0 [] [], rfl, rfl, rfl, rfl⟩

/-- Symmetry invariant for the jump-table construction: starting from a
symmetric table whose keys and values lie below the scan index, with a
duplicate-free stack of unbound positions below the index, the scan
returns a symmetric table. -/
theorem filterAux_symm (keep : Option (List Char)) (rest : List Char) :
    ∀ (idx : Nat) (stack : List Nat) (jt : List (Nat × Nat))
      (out : List Char) (jtF : List (Nat × Nat)),
    (∀ k j, jtLookup jt k = some j → jtLookup jt j = some k) →
    (∀ k j, jtLookup jt k = some j → k < idx ∧ j < idx) →
    (∀ s, s ∈ stack → jtLookup jt s = none ∧ s < idx) →
    stack.Nodup →
    filterAux keep rest idx stack jt = .ok (out, jtF) →
    ∀ k j, jtLookup jtF k = some j → jtLookup jtF j = some k := by
  induction rest with
  | nil =>
    intro idx stack jt out jtF hsym hbnd hstk hnd h
    cases stack with
    | nil =>
      simp [filterAux] at h
      rw [← h.2]
      exact hsym
    | cons s ss => simp [filterAux] at h
  | cons c rest ih =>
    intro idx stack jt out jtF hsym hbnd hstk hnd h
    simp only [filterAux] at h
    by_cases h1 : c = '['
    · subst h1
      rw [if_pos rfl] at h
      dsimp only at h
      cases hrec : filterAux keep rest (idx + 1) (idx :: stack) jt with
      | error e => rw [hrec] at h; exact absurd h (by simp)
      | ok p =>
        rw [hrec] at h
        obtain ⟨out', jtF'⟩ := p
        dsimp only at h
        have key := ih (idx + 1) (idx :: stack) jt out' jtF' hsym
          (fun k j hk => by have := hbnd k j hk; omega)
          (fun s hs => by
            rcases List.mem_cons.mp hs with hs | hs
            · subst hs
              refine ⟨?_, Nat.lt_succ_self _⟩
              cases hli : jtLookup jt s with
              | none => rfl
              | some j => exact absurd (hbnd s j hli).1 (lt_irrefl s)
            · have hm := hstk s hs
              exact ⟨hm.1, by omega⟩)
          (List.nodup_cons.mpr
            ⟨fun hmem => absurd (hstk idx hmem).2 (lt_irrefl idx), hnd⟩)
          hrec
        simp only [Except.ok.injEq, Prod.mk.injEq] at h
        rw [← h.2]
        exact key
    · by_cases h2 : c = ']'
      · subst h2
        rw [if_neg h1, if_pos rfl] at h
        cases stack with
        | nil => dsimp only at h; exact absurd h (by simp)
        | cons opening stack' =>
          dsimp only at h
          obtain ⟨hop, hoplt⟩ := hstk opening (List.mem_cons_self _ _)
          have hopnotin := (List.nodup_cons.mp hnd).1
          have hndtail := (List.nodup_cons.mp hnd).2
          have hne : idx ≠ opening := by omega
          cases hrec : filterAux keep rest (idx + 1) stack'
              ((opening, idx) :: (idx, opening) :: jt) with
          | error e => rw [hrec] at h; exact absurd h (by simp)
          | ok p =>
            rw [hrec] at h
            obtain ⟨out', jtF'⟩ := p
            dsimp only at h
            have hsym' : ∀ k j,
                jtLookup ((opening, idx) :: (idx, opening) :: jt) k = some j →
                jtLookup ((opening, idx) :: (idx, opening) :: jt) j = some k := by
              intro k j hk
              rw [jtLookup_cons] at hk
              by_cases e1 : k = opening
              · subst e1
                rw [if_pos rfl] at hk
                injection hk with hk
                subst hk
                rw [jtLookup_cons, if_neg hne, jtLookup_cons, if_pos rfl]
              · rw [if_neg e1, jtLookup_cons] at hk
                by_cases e2 : k = idx
                · subst e2
                  rw [if_pos rfl] at hk
                  injection hk with hk
                  subst hk
                  rw [jtLookup_cons, if_pos rfl]
                · rw [if_neg e2] at hk
                  have hjk := hsym k j hk
                  have hbk := hbnd k j hk
                  have hjne1 : j ≠ opening := by
                    intro hcon
                    subst hcon
                    rw [hop] at hjk
                    exact absurd hjk (by simp)
                  have hjne2 : j ≠ idx := by omega
                  rw [jtLookup_cons, if_neg hjne1, jtLookup_cons, if_neg hjne2]
                  exact hjk
            have hbnd' : ∀ k j,
                jtLookup ((opening, idx) :: (idx, opening) :: jt) k = some j →
                k < idx + 1 ∧ j < idx + 1 := by
              intro k j hk
              rw [jtLookup_cons] at hk
              by_cases e1 : k = opening
              · subst e1
                rw [if_pos rfl] at hk
                injection hk with hk
                omega
              · rw [if_neg e1, jtLookup_cons] at hk
                by_cases e2 : k = idx
                · subst e2
                  rw [if_pos rfl] at hk
                  injection hk with hk
                  omega
                · rw [if_neg e2] at hk
                  have := hbnd k j hk
                  omega
            have hstk' : ∀ s, s ∈ stack' →
                jtLookup ((opening, idx) :: (idx, opening) :: jt) s = none ∧
                s < idx + 1 := by
              intro s hs
              obtain ⟨hsn, hslt⟩ := hstk s (List.mem_cons_of_mem _ hs)
              have hs1 : s ≠ opening := fun hcon => hopnotin (hcon ▸ hs)
              have hs2 : s ≠ idx := by omega
              rw [jtLookup_cons, if_neg hs1, jtLookup_cons, if_neg hs2]
              exact ⟨hsn, by omega⟩
            have key := ih (idx + 1) stack' _ out' jtF'
              hsym' hbnd' hstk' hndtail hrec
            simp only [Except.ok.injEq, Prod.mk.injEq] at h
            rw [← h.2]
            exact key
      · rw [if_neg h1, if_neg h2] at h
        dsimp only at h
        cases hrec : filterAux keep rest (idx + 1) stack jt with
        | error e => rw [hrec] at h; exact absurd h (by simp)
        | ok p =>
          rw [hrec] at h
          obtain ⟨out', jtF'⟩ := p
          dsimp only at h
          have key := ih (idx + 1) stack jt out' jtF' hsym
            (fun k j hk => by have := hbnd k j hk; omega)
            (fun s hs => by
              have hm := hstk s hs
              exact ⟨hm.1, by omega⟩)
            hnd hrec
          simp only [Except.ok.injEq, Prod.mk.injEq] at h
          rw [← h.2]
          exact key

/-- C9: whenever the preprocessor accepts a source (brackets balanced), the
jump table it builds from the empty table is symmetric: any position bound
to `j` has `j` bound back to it — each `'['` maps to its matching `']'` and
vice versa. -/
theorem jump_table_symmetric (instrs : List Char) (keep : Option (List Char))
    (out : List Char) (jt : List (Nat × Nat))
    (h : filter_instructions instrs keep [] = .ok (out, jt)) :
    ∀ i j, jtLookup jt i = some j → jtLookup jt j = some i :=
  filterAux_symm keep instrs 0 [] [] out jt
    (fun k j hk => by simp [jtLookup] at hk)
    (fun k j hk => by simp [jtLookup] at hk)
    (fun s hs => absurd hs (List.not_mem_nil s))
    List.nodup_nil h

/-- Witness for `jump_table_symmetric`: on `"[]"`, position 0 maps to 1 and
the theorem returns the entry mapping 1 back to 0. -/
theorem jump_table_symmetric_witness :
    jtLookup [(0, 1), (1, 0)] 1 = some 0 :=
  jump_table_symmetric ['[', ']'] none ['[', ']'] [(0, 1), (1, 0)] rfl 0 1 rfl

end Esolangs
